import Mathlib

/-!
Verification development for `sqlalchemy_continuum/table_builder.py`.

The builder derives a version-table schema from a parent table schema and
versioning configuration options.  The Python source is embedded shallowly:

* SQLAlchemy column objects become the `Column` structure (the fields the
  builder reads or writes: name, key, type, primary_key, nullable, unique,
  onupdate, autoincrement, index).
* SQLAlchemy tables become `Table` (name plus ordered column list) and a
  metadata catalog becomes an ordered list of tables.
* Python truthiness of the `autoincrement` attribute (which may be the
  string "auto", `True` or `False`) becomes the three-valued `AutoIncr`.
* The versioning manager is external to the builder; its pieces used by the
  builder are modelled as the `Manager` structure: the resolved option
  values, the `is_excluded_column` policy predicate, and the plugin hook
  `after_build_version_table_columns`, modelled as a function from the
  assembled column list to the final column list.
-/

set_option autoImplicit false

namespace TB

/-- Column data types as far as the builder distinguishes them:
`sa.BigInteger`, `sa.SmallInteger`, and any parent-table type,
carried opaquely by name. -/
inductive ColType where
  | BigInteger : ColType
  | SmallInteger : ColType
  | Other : String → ColType
deriving DecidableEq, Repr

/-- The `autoincrement` attribute of a SQLAlchemy column: the default is the
string `"auto"` (truthy), and it may be set to `True` or `False`.  The
builder tests it for truthiness (`if column_copy.autoincrement:`). -/
inductive AutoIncr where
  | auto : AutoIncr
  | yes : AutoIncr
  | no : AutoIncr
deriving DecidableEq, Repr

/-- Python truthiness of an `autoincrement` value: `"auto"` and `True` are
truthy, `False` is not. -/
def AutoIncr.truthy : AutoIncr → Bool
  | .auto => true
  | .yes => true
  | .no => false

/-- A SQLAlchemy column descriptor, restricted to the attributes read or
written by the table builder. -/
structure Column where
  name : String
  key : String
  type : ColType
  primary_key : Bool
  nullable : Bool
  unique : Bool
  onupdate : Option String
  autoincrement : AutoIncr
  index : Bool
deriving DecidableEq, Repr

/-- A table schema: a name and an ordered sequence of column descriptors. -/
structure Table where
  name : String
  columns : List Column
deriving DecidableEq, Repr

/-- `sa.Column(name, ty)` with every keyword argument left at its default:
key = name, not a primary key, nullable, not unique, no onupdate trigger,
autoincrement `"auto"`, not indexed.  Used for the bare transaction-column
placeholder appended inside `reflected_columns`. -/
def saColumnDefault (name : String) (ty : ColType) : Column :=
  { name := name, key := name, type := ty, primary_key := false,
    nullable := true, unique := false, onupdate := none,
    autoincrement := .auto, index := false }

/-- The substitution template held by the `table_name` option: a Python
format string with one `%s` slot, applied by `template % parent_name`.
`pre`/`suf` are the text around the slot. -/
structure Template where
  pre : String
  suf : String
deriving DecidableEq, Repr

/-- `template % s`: substitute `s` into the single slot. -/
def Template.subst (t : Template) (s : String) : String :=
  t.pre ++ s ++ t.suf

/-- The versioning options read by the builder, already resolved through the
two-tier option lookup (`TableBuilder.option`; the lookup mechanism itself is
embedded separately as `ProviderModel.builder_option` below). -/
structure Options where
  table_name : Template
  transaction_column_name : String
  end_transaction_column_name : String
  operation_type_column_name : String
  strategy : String
  exclude : List String
deriving DecidableEq, Repr

/-- A mapped entity (`self.model`), as far as the builder uses it: the
mapping association `sa.inspect(model).columns.items()` from logical
attribute keys to underlying raw columns.  The identity-based test
`value is column` is modelled by the column's name, which identifies a
column within its parent table. -/
structure Model where
  columnsAssoc : List (String × String)
deriving DecidableEq, Repr

/-- The slice of the external versioning manager that the builder touches:
resolved options, the exclusion policy predicate
`manager.is_excluded_column(model, column)`, and the plugin hook
`manager.plugins.after_build_version_table_columns`, modelled as a function
from the assembled column list to the (possibly mutated) final list. -/
structure Manager where
  options : Options
  is_excluded_column : Model → Column → Bool
  plugins : List Column → List Column

/-- The table builder state: manager, parent table, optional mapped model. -/
structure TableBuilder where
  manager : Manager
  parent_table : Table
  model : Option Model

namespace TableBuilder

/-- `TableBuilder.table_name`: the version table name,
`self.option('table_name') % self.parent_table.name`. -/
def table_name (b : TableBuilder) : String :=
  b.manager.options.table_name.subst b.parent_table.name

/-- The exclusion test applied per parent column inside `parent_columns`:
with a model, the manager's policy predicate `is_excluded_column(model,
column)`; without a model, a plain membership test of the column against
the excluded-name set `options['exclude']`. -/
def excluded (b : TableBuilder) (c : Column) : Bool :=
  match b.model with
  | some m => b.manager.is_excluded_column m c
  | none => b.manager.options.exclude.contains c.name

/-- `TableBuilder.parent_columns`: the parent table's columns in source
order, skipping those the exclusion test rejects. -/
def parent_columns (b : TableBuilder) : List Column :=
  b.parent_table.columns.filter (fun c => !(b.excluded c))

/-- The key-renaming scan at the end of `reflect_column`: iterate over the
model's mapping association and set the copy's key to the attribute key
whose value is the source column (so the last matching entry wins);
keep the original key when no entry matches. -/
def renamedKey (m : Model) (c : Column) : String :=
  m.columnsAssoc.foldl (fun k p => if p.2 = c.name then p.1 else k) c.key

/-- `TableBuilder.reflect_column`: copy a parent column and alter it —
drop uniqueness, drop the onupdate trigger, disable truthy autoincrement,
force non-null when the name equals the transaction column name, then relax
nullability to true when the column is not a primary key, and finally
rename the key through the model's mapping association when a model is
present. -/
def reflect_column (b : TableBuilder) (c : Column) : Column :=
  let c1 := { c with unique := false, onupdate := none }
  let c2 := if c1.autoincrement.truthy then { c1 with autoincrement := .no } else c1
  let c3 := if c2.name = b.manager.options.transaction_column_name then
              { c2 with nullable := false } else c2
  let c4 := if !c3.primary_key then { c3 with nullable := true } else c3
  match b.model with
  | some m => { c4 with key := renamedKey m c }
  | none => c4

/-- `TableBuilder.reflected_columns`: reflect every non-excluded parent
column, and append a bare `sa.Column(transaction_column_name,
sa.BigInteger)` when no reflected column already carries that key. -/
def reflected_columns (b : TableBuilder) : List Column :=
  let tcn := b.manager.options.transaction_column_name
  let columns := b.parent_columns.map b.reflect_column
  if (columns.map Column.key).contains tcn then columns
  else columns ++ [saColumnDefault tcn .BigInteger]

/-- `TableBuilder.transaction_column`:
`sa.Column(transaction_column_name, sa.BigInteger, primary_key=True,
index=True, autoincrement=False)`.  A primary-key SQLAlchemy column is
non-nullable by default. -/
def transaction_column (b : TableBuilder) : Column :=
  { name := b.manager.options.transaction_column_name,
    key := b.manager.options.transaction_column_name,
    type := .BigInteger, primary_key := true, nullable := false,
    unique := false, onupdate := none, autoincrement := .no, index := true }

/-- `TableBuilder.end_transaction_column`:
`sa.Column(end_transaction_column_name, sa.BigInteger, index=True)`. -/
def end_transaction_column (b : TableBuilder) : Column :=
  { name := b.manager.options.end_transaction_column_name,
    key := b.manager.options.end_transaction_column_name,
    type := .BigInteger, primary_key := false, nullable := true,
    unique := false, onupdate := none, autoincrement := .auto, index := true }

/-- `TableBuilder.operation_type_column`:
`sa.Column(operation_type_column_name, sa.SmallInteger, nullable=False,
index=True)`. -/
def operation_type_column (b : TableBuilder) : Column :=
  { name := b.manager.options.operation_type_column_name,
    key := b.manager.options.operation_type_column_name,
    type := .SmallInteger, primary_key := false, nullable := false,
    unique := false, onupdate := none, autoincrement := .auto, index := true }

/-- `TableBuilder.columns`: the reflected columns, then the transaction
column, then (under the validity strategy) the end-transaction column, and
the operation-type column last. -/
def columns (b : TableBuilder) : List Column :=
  let data := b.reflected_columns
  let data := data ++ [b.transaction_column]
  let data := if b.manager.options.strategy = "validity" then
                data ++ [b.end_transaction_column] else data
  data ++ [b.operation_type_column]

end TableBuilder

/-- A metadata catalog: the ordered collection of tables registered under
one namespace (`parent_table.metadata`). -/
abbrev MetaData := List Table

/-- Look a table up in the catalog by name. -/
def metaLookup (meta : MetaData) (n : String) : Option Table :=
  meta.find? (fun t => t.name == n)

/-- Adding one column to a SQLAlchemy column collection: a column whose key
is already present replaces the existing column in place; otherwise it is
appended at the end. -/
def addColumnDedup (cols : List Column) (c : Column) : List Column :=
  if cols.any (fun x => x.key == c.key) then
    cols.map (fun x => if x.key == c.key then c else x)
  else cols ++ [c]

/-- Fold a list of columns into a fresh column collection, deduplicating by
key as each column is added. -/
def dedupColumns (cols : List Column) : List Column :=
  cols.foldl addColumnDedup []

/-- Registration failure raised by `sa.schema.Table`. -/
inductive SAErr where
  | InvalidRequestError : SAErr
deriving DecidableEq, Repr

/-- Modelled from the spec: `sa.schema.Table(name, metadata, *columns,
extend_existing=...)`, the SQLAlchemy registration step, which is external
library code.  Per the spec's table-assembly contract: when the name is
already registered, `extend_existing=True` reuses the existing table and
augments it with the given columns, while without `extend_existing` the
clash is a catalog conflict reported to the caller; a fresh name registers
a new table.  Columns are collected with key deduplication (a later column
with an existing key replaces the earlier one in place), which is what
keeps the version table with exactly one column per configured key. -/
def saTable (name : String) (meta : MetaData) (cols : List Column)
    (extend_existing : Bool) : Except SAErr (Table × MetaData) :=
  match metaLookup meta name with
  | some t =>
      if extend_existing then
        let t2 : Table := { name := t.name,
                            columns := cols.foldl addColumnDedup t.columns }
        .ok (t2, meta.map (fun u => if u.name == name then t2 else u))
      else .error .InvalidRequestError
  | none =>
      let t : Table := { name := name, columns := dedupColumns cols }
      .ok (t, meta ++ [t])

/-- `TableBuilder.__call__(extends=None)`: the column list is the assembled
`columns` in normal mode and empty in extend mode; the plugin hook then
processes that list, and the table is registered under the parent's
metadata catalog (passed here explicitly as `meta`) — named by the
template-derived `table_name` in normal mode, or reusing the extended
table's name with `extend_existing=True` in extend mode. -/
def TableBuilder.build (b : TableBuilder) (meta : MetaData)
    (extends_ : Option Table) : Except SAErr (Table × MetaData) :=
  let columns := match extends_ with
    | none => b.columns
    | some _ => []
  let columns := b.manager.plugins columns
  saTable
    (match extends_ with
     | none => b.table_name
     | some e => e.name)
    meta columns extends_.isSome

/-- Python exception classes involved in the builder's option lookup. -/
inductive PyErr where
  | TypeError : PyErr
  | KeyError : PyErr
deriving DecidableEq, Repr

/-- The option environment behind `TableBuilder.option`:
`manager.option(model, name)` — an external call that returns a value or
raises — and the defaults mapping `manager.options`. -/
structure ProviderModel where
  manager_option : Option Model → String → Except PyErr Nat
  defaults : String → Option Nat

/-- `TableBuilder.option(name)` as written in the source: call
`self.manager.option(self.model, name)` inside a `try`, and on `TypeError`
— and only on `TypeError` — fall back to the defaults subscript
`self.manager.options[name]` (which raises `KeyError` when the name is
absent); any other exception propagates. -/
def ProviderModel.builder_option (p : ProviderModel) (model : Option Model)
    (name : String) : Except PyErr Nat :=
  match p.manager_option model name with
  | .ok v => .ok v
  | .error e =>
      if e = .TypeError then
        match p.defaults name with
        | some v => .ok v
        | none => .error .KeyError
      else .error e

/-- The option lookup as the spec words it: an explicit typed-optional
chain that consults the model-scoped mapping first and returns the
table/global default whenever the model-scoped lookup has no value. -/
def specOptionChain (modelScoped : Option Model → String → Option Nat)
    (defaults : String → Option Nat) (model : Option Model)
    (name : String) : Option Nat :=
  match modelScoped model name with
  | some v => some v
  | none => defaults name

/-! ### Lemmas about key-deduplicated column collections -/

/-- A column collection is well formed when no two columns share a key. -/
abbrev KeyUnique (cols : List Column) : Prop :=
  cols.Pairwise (fun a b => a.key ≠ b.key)

/-- The last column carrying key `k` in a list, if any. -/
def lastKeyed (cols : List Column) (k : String) : Option Column :=
  cols.foldl (fun acc c => if c.key == k then some c else acc) none

/-! ### Concrete instances used to exercise the definitions -/

/-- Parent column `id`: an autoincrementing integer primary key. -/
def colId : Column :=
  { name := "id", key := "id", type := .Other "Integer", primary_key := true,
    nullable := false, unique := false, onupdate := none,
    autoincrement := .auto, index := false }

/-- Parent column `amount`: a plain nullable data column. -/
def colAmount : Column :=
  { name := "amount", key := "amount", type := .Other "Numeric",
    primary_key := false, nullable := true, unique := false, onupdate := none,
    autoincrement := .auto, index := false }

/-- Parent column `created_at`: excluded by configuration below. -/
def colCreatedAt : Column :=
  { name := "created_at", key := "created_at", type := .Other "DateTime",
    primary_key := false, nullable := true, unique := false, onupdate := none,
    autoincrement := .no, index := false }

/-- A non-primary-key, non-nullable parent column that happens to carry the
configured transaction column name. -/
def colTxLike : Column :=
  { name := "transaction_id", key := "transaction_id", type := .BigInteger,
    primary_key := false, nullable := false, unique := false,
    onupdate := none, autoincrement := .no, index := false }

/-- The `invoice` parent table. -/
def invoiceTable : Table :=
  { name := "invoice", columns := [colId, colAmount, colCreatedAt] }

/-- Versioning options: default column names, validity strategy,
`created_at` excluded, and the `%s_version` naming template. -/
def optsA : Options :=
  { table_name := { pre := "", suf := "_version" },
    transaction_column_name := "transaction_id",
    end_transaction_column_name := "end_transaction_id",
    operation_type_column_name := "operation_type",
    strategy := "validity",
    exclude := ["created_at"] }

/-- A manager with options `optsA`, a policy predicate excluding nothing,
and a plugin hook that adds nothing. -/
def mgrA : Manager :=
  { options := optsA, is_excluded_column := fun _ _ => false,
    plugins := fun cs => cs ++ [] }

/-- A builder over the `invoice` table with no mapped model. -/
def bA : TableBuilder :=
  { manager := mgrA, parent_table := invoiceTable, model := none }

/-- An already-built shared version table, used to exercise extend mode. -/
def sharedVersionTable : Table :=
  { name := "invoice_version", columns := [colId, colAmount] }

/-- An option environment whose model-scoped lookup raises `KeyError` while
the defaults do hold a value. -/
def provBad : ProviderModel :=
  { manager_option := fun _ _ => .error .KeyError,
    defaults := fun _ => some 7 }

/-- An option environment whose model-scoped lookup raises `TypeError`
(e.g. the builder carries no versioned model). -/
def provTE : ProviderModel :=
  { manager_option := fun _ _ => .error .TypeError,
    defaults := fun _ => some 7 }

/-! ### Lemmas -/

theorem lastKeyed_foldl (k : String) (cs : List Column) (a : Option Column) :
    cs.foldl (fun acc c => if c.key == k then some c else acc) a =
      match lastKeyed cs k with
      | some d => some d
      | none => a := by
  induction cs generalizing a with
  | nil => rfl
  | cons c cs ih =>
    have hc : lastKeyed (c :: cs) k =
        List.foldl (fun acc c => if c.key == k then some c else acc)
          (if c.key == k then some c else none) cs := rfl
    show List.foldl _ (if c.key == k then some c else a) cs = _
    rw [ih, hc, ih]
    cases lastKeyed cs k with
    | some d => rfl
    | none => cases hck : (c.key == k) <;> simp [hck]

theorem lastKeyed_cons (c : Column) (cs : List Column) (k : String) :
    lastKeyed (c :: cs) k =
      match lastKeyed cs k with
      | some d => some d
      | none => if c.key == k then some c else none := by
  show List.foldl _ (if c.key == k then some c else none) cs = _
  rw [lastKeyed_foldl]

theorem lastKeyed_append (xs ys : List Column) (k : String) :
    lastKeyed (xs ++ ys) k =
      match lastKeyed ys k with
      | some d => some d
      | none => lastKeyed xs k := by
  show List.foldl _ none (xs ++ ys) = _
  rw [List.foldl_append, lastKeyed_foldl]
  cases lastKeyed ys k <;> rfl

theorem lastKeyed_eq_none (l : List Column) (k : String)
    (h : ∀ c ∈ l, c.key ≠ k) : lastKeyed l k = none := by
  induction l with
  | nil => rfl
  | cons c cs ih =>
    rw [lastKeyed_cons, ih (fun x hx => h x (List.mem_cons_of_mem c hx))]
    simp [h c (List.mem_cons_self c cs)]

theorem map_replace_of_not_mem (l : List Column) (c : Column)
    (h : ∀ x ∈ l, x.key ≠ c.key) :
    l.map (fun x => if x.key == c.key then c else x) = l := by
  induction l with
  | nil => rfl
  | cons a as ih =>
    have ha : (a.key == c.key) = false := by
      simp [h a (List.mem_cons_self a as)]
    simp only [List.map_cons, ha, if_false, Bool.false_eq_true]
    rw [ih (fun x hx => h x (List.mem_cons_of_mem a hx))]

theorem filter_map_replace (acc : List Column) (c : Column) (k : String)
    (h : KeyUnique acc) (hmem : ∃ x ∈ acc, x.key = c.key) :
    (acc.map (fun x => if x.key == c.key then c else x)).filter
        (fun x => x.key == k) =
      if c.key = k then [c] else acc.filter (fun x => x.key == k) := by
  induction acc with
  | nil => simp at hmem
  | cons a as ih =>
    have hpw := (List.pairwise_cons.mp h)
    have hk : ∀ b ∈ as, a.key ≠ b.key := hpw.1
    have h' : KeyUnique as := hpw.2
    by_cases hac : a.key = c.key
    · have hne : ∀ x ∈ as, x.key ≠ c.key := fun x hx hxc =>
        hk x hx (hac.trans hxc.symm)
      have hmap : (a :: as).map (fun x => if x.key == c.key then c else x) =
          c :: as := by
        simp only [List.map_cons]
        rw [if_pos (beq_iff_eq.mpr hac), map_replace_of_not_mem as c hne]
      rw [hmap]
      by_cases hck : c.key = k
      · have hnil : as.filter (fun x => x.key == k) = [] := by
          rw [List.filter_eq_nil_iff]
          intro x hx
          simp [hck ▸ hne x hx]
        rw [List.filter_cons, if_pos (by simp [hck]), hnil, if_pos hck]
      · have hak : a.key ≠ k := fun hh => hck (hac ▸ hh)
        rw [List.filter_cons, if_neg (by simp [hck]), if_neg hck,
          List.filter_cons, if_neg (by simp [hak])]
    · have hmem' : ∃ x ∈ as, x.key = c.key := by
        rcases hmem with ⟨x, hx, hxc⟩
        rcases List.mem_cons.mp hx with rfl | hx'
        · exact absurd hxc hac
        · exact ⟨x, hx', hxc⟩
      have hmap : (a :: as).map (fun x => if x.key == c.key then c else x) =
          a :: as.map (fun x => if x.key == c.key then c else x) := by
        simp only [List.map_cons]
        rw [if_neg (by simp [hac])]
      rw [hmap]
      by_cases hck : c.key = k
      · have hak : a.key ≠ k := fun hh => hac (hh.trans hck.symm)
        rw [List.filter_cons, if_neg (by simp [hak]), ih h' hmem',
          if_pos hck, if_pos hck]
      · rw [List.filter_cons, ih h' hmem']
        simp only [if_neg hck]
        rw [List.filter_cons]

theorem filter_addColumnDedup (acc : List Column) (c : Column) (k : String)
    (h : KeyUnique acc) :
    (addColumnDedup acc c).filter (fun x => x.key == k) =
      if c.key = k then [c] else acc.filter (fun x => x.key == k) := by
  unfold addColumnDedup
  by_cases hany : acc.any (fun x => x.key == c.key) = true
  · rw [if_pos hany]
    rcases List.any_eq_true.mp hany with ⟨x, hx, hxc⟩
    exact filter_map_replace acc c k h ⟨x, hx, beq_iff_eq.mp hxc⟩
  · rw [if_neg hany]
    have hnone : ∀ x ∈ acc, x.key ≠ c.key := by
      intro x hx hxc
      exact hany (List.any_eq_true.mpr ⟨x, hx, beq_iff_eq.mpr hxc⟩)
    rw [List.filter_append]
    by_cases hck : c.key = k
    · have hnil : acc.filter (fun x => x.key == k) = [] := by
        rw [List.filter_eq_nil_iff]
        intro x hx
        simp [hck ▸ hnone x hx]
      simp [hck, hnil]
    · simp [hck]

theorem key_replace (c x : Column) :
    (if x.key == c.key then c else x).key = x.key := by
  by_cases hx : x.key = c.key
  · rw [if_pos (beq_iff_eq.mpr hx), hx]
  · rw [if_neg (by simp [hx])]

theorem keyUnique_addColumnDedup (acc : List Column) (c : Column)
    (h : KeyUnique acc) : KeyUnique (addColumnDedup acc c) := by
  unfold addColumnDedup
  by_cases hany : acc.any (fun x => x.key == c.key) = true
  · rw [if_pos hany]
    rw [KeyUnique, List.pairwise_map]
    refine h.imp ?_
    intro a b hab
    show (if a.key == c.key then c else a).key ≠
      (if b.key == c.key then c else b).key
    rw [key_replace, key_replace]
    exact hab
  · rw [if_neg hany]
    have hnone : ∀ x ∈ acc, x.key ≠ c.key := by
      intro x hx hxc
      exact hany (List.any_eq_true.mpr ⟨x, hx, beq_iff_eq.mpr hxc⟩)
    rw [KeyUnique, List.pairwise_append]
    refine ⟨h, List.pairwise_singleton _ _, ?_⟩
    intro a ha b hb
    rw [List.mem_singleton.mp hb]
    exact hnone a ha

theorem keyUnique_foldl (cols acc : List Column) (h : KeyUnique acc) :
    KeyUnique (List.foldl addColumnDedup acc cols) := by
  induction cols generalizing acc with
  | nil => exact h
  | cons c cs ih => exact ih _ (keyUnique_addColumnDedup acc c h)

theorem filter_foldl_dedup (cols acc : List Column) (k : String)
    (h : KeyUnique acc) :
    (List.foldl addColumnDedup acc cols).filter (fun c => c.key == k) =
      match lastKeyed cols k with
      | some c => [c]
      | none => acc.filter (fun c => c.key == k) := by
  induction cols generalizing acc with
  | nil => rfl
  | cons c cs ih =>
    rw [List.foldl_cons, ih _ (keyUnique_addColumnDedup acc c h),
      lastKeyed_cons]
    cases hcs : lastKeyed cs k with
    | some d => rfl
    | none =>
      show (addColumnDedup acc c).filter _ = _
      rw [filter_addColumnDedup acc c k h]
      by_cases hck : c.key = k
      · simp [hck]
      · have : (c.key == k) = false := by simp [hck]
        simp [hck, this]

theorem foldl_dedup_of_keyUnique (l acc : List Column)
    (h : KeyUnique (acc ++ l)) :
    List.foldl addColumnDedup acc l = acc ++ l := by
  induction l generalizing acc with
  | nil => simp
  | cons c cs ih =>
    have hnc : ∀ x ∈ acc, x.key ≠ c.key := by
      have := (List.pairwise_append.mp h).2.2
      intro x hx
      exact this x hx c (List.mem_cons_self c cs)
    have hany : ¬ (acc.any (fun x => x.key == c.key) = true) := by
      intro hx
      rcases List.any_eq_true.mp hx with ⟨x, hmx, hbx⟩
      exact hnc x hmx (beq_iff_eq.mp hbx)
    have hstep : addColumnDedup acc c = acc ++ [c] := by
      unfold addColumnDedup
      rw [if_neg hany]
    have h' : KeyUnique ((acc ++ [c]) ++ cs) := by
      rw [List.append_assoc, List.singleton_append]
      exact h
    rw [List.foldl_cons, hstep, ih _ h', List.append_assoc,
      List.singleton_append]

theorem metaLookup_append_of_none (meta : MetaData) (t : Table)
    (h : metaLookup meta t.name = none) :
    metaLookup (meta ++ [t]) t.name = some t := by
  induction meta with
  | nil => simp [metaLookup]
  | cons u us ih =>
    unfold metaLookup at h ih ⊢
    cases hu : (u.name == t.name) with
    | true =>
      simp only [List.find?] at h
      rw [hu] at h
      simp at h
    | false =>
      rw [List.cons_append, List.find?_cons_of_neg _ (by simp [hu])]
      rw [List.find?_cons_of_neg _ (by simp [hu])] at h
      exact ih h

/-- A normal-mode build against a catalog that does not yet hold the target
name registers a fresh table holding the deduplicated, plugin-processed
column list. -/
theorem build_none_eq (b : TableBuilder) (meta : MetaData)
    (h : metaLookup meta b.table_name = none) :
    b.build meta none =
      .ok (⟨b.table_name, dedupColumns (b.manager.plugins b.columns)⟩,
        meta ++ [⟨b.table_name, dedupColumns (b.manager.plugins b.columns)⟩]) := by
  unfold TableBuilder.build saTable
  simp [h]

/-- An extend-mode build against a catalog holding the extended table
augments that table with the plugin-processed empty list. -/
theorem build_some_eq (b : TableBuilder) (meta : MetaData) (e : Table)
    (h : metaLookup meta e.name = some e) :
    ∃ m2, b.build meta (some e) =
      .ok (⟨e.name, (b.manager.plugins []).foldl addColumnDedup e.columns⟩,
        m2) := by
  refine ⟨meta.map (fun u => if u.name == e.name then
    ⟨e.name, (b.manager.plugins []).foldl addColumnDedup e.columns⟩ else u), ?_⟩
  unfold TableBuilder.build saTable
  simp [h]

/-- The assembled column list, written with the strategy branch as an
inline list segment. -/
theorem columns_eq (b : TableBuilder) :
    b.columns =
      (b.reflected_columns ++ [b.transaction_column] ++
        (if b.manager.options.strategy = "validity" then
          [b.end_transaction_column] else [])) ++
        [b.operation_type_column] := by
  unfold TableBuilder.columns
  by_cases hs : b.manager.options.strategy = "validity" <;> simp [hs]

theorem lastKeyed_append_none (xs ys : List Column) (k : String)
    (h : lastKeyed ys k = none) :
    lastKeyed (xs ++ ys) k = lastKeyed xs k := by
  rw [lastKeyed_append, h]

theorem lastKeyed_append_some (xs ys : List Column) (k : String) (d : Column)
    (h : lastKeyed ys k = some d) :
    lastKeyed (xs ++ ys) k = some d := by
  rw [lastKeyed_append, h]

/-! ### The claims -/

/-- C2 counterexample.  The claim says `reflect(c)` is non-nullable whenever
`c`'s name equals the configured transaction column name.  On the code the
non-primary-key relaxation runs after the transaction-name forcing and
overrides it: the parent column `colTxLike` is named `transaction_id`
(equal to the configured transaction column name), is not a primary key,
and arrives non-nullable, yet its reflection is nullable. -/
theorem C2_counterexample :
    colTxLike.name = bA.manager.options.transaction_column_name ∧
    colTxLike.primary_key = false ∧
    colTxLike.nullable = false ∧
    (bA.reflect_column colTxLike).nullable = true := by
  refine ⟨rfl, rfl, rfl, ?_⟩
  decide

/-- C2 (amended): the nullable flag of a reflected column is `true` whenever
the source column is not a primary key — even when its name equals the
configured transaction column name, because the non-primary-key relaxation
is applied after the transaction-name forcing; for primary-key columns the
flag is forced `false` when the name equals the transaction column name and
is otherwise left unchanged. -/
theorem C2_reflect_nullable (b : TableBuilder) (c : Column) :
    (b.reflect_column c).nullable =
      if c.primary_key then
        (if c.name = b.manager.options.transaction_column_name then false
         else c.nullable)
      else true := by
  unfold TableBuilder.reflect_column
  cases hm : b.model <;>
    by_cases hpk : c.primary_key <;>
    by_cases hai : c.autoincrement.truthy <;>
    by_cases hn : c.name = b.manager.options.transaction_column_name <;>
    simp [hpk, hai, hn]

/-- C9: reflection produces a copy of the source column with the uniqueness
flag removed, the update trigger removed and autoincrement disabled, while
name, type, primary-key flag and index flag are carried over unchanged; the
source column itself (a pure value here) is not modified. -/
theorem C9_reflect_strips (b : TableBuilder) (c : Column) :
    (b.reflect_column c).unique = false ∧
    (b.reflect_column c).onupdate = none ∧
    (b.reflect_column c).autoincrement = .no ∧
    (b.reflect_column c).name = c.name ∧
    (b.reflect_column c).type = c.type ∧
    (b.reflect_column c).primary_key = c.primary_key ∧
    (b.reflect_column c).index = c.index := by
  unfold TableBuilder.reflect_column
  cases hm : b.model <;>
    cases hai : c.autoincrement <;>
    by_cases hn : c.name = b.manager.options.transaction_column_name <;>
    by_cases hpk : c.primary_key <;>
    simp [hn, hpk, AutoIncr.truthy]

/-- C6: the assembled column list always ends with the operation-type
column — so it is the last column of the base list under either strategy
(in particular last-or-second-to-last), and that column is non-null,
indexed, small-integer typed and keyed by the configured
operation-type column name. -/
theorem C6_operation_type_column (b : TableBuilder) :
    b.columns.getLast? = some b.operation_type_column ∧
    b.operation_type_column.key =
      b.manager.options.operation_type_column_name ∧
    b.operation_type_column.nullable = false ∧
    b.operation_type_column.index = true ∧
    b.operation_type_column.type = .SmallInteger := by
  refine ⟨?_, rfl, rfl, rfl, rfl⟩
  show (_ ++ [b.operation_type_column]).getLast? = _
  exact List.getLast?_concat _

/-- C10: an extend-mode build reads no configuration at all — two builders
that share only the plugin hook (options, exclusion policy, parent table
and model all differ) produce identical results, and that result is the
registration of the extended table's name with the plugin hook applied
exactly once to the empty column list. -/
theorem C10_extend_ignores_options (o1 o2 : Options)
    (x1 x2 : Model → Column → Bool) (p : List Column → List Column)
    (pt1 pt2 : Table) (m1 m2 : Option Model) (meta : MetaData) (e : Table) :
    TableBuilder.build ⟨⟨o1, x1, p⟩, pt1, m1⟩ meta (some e) =
      TableBuilder.build ⟨⟨o2, x2, p⟩, pt2, m2⟩ meta (some e) ∧
    TableBuilder.build ⟨⟨o1, x1, p⟩, pt1, m1⟩ meta (some e) =
      saTable e.name meta (p []) true :=
  ⟨rfl, rfl⟩

/-- C3 counterexample.  The claim says the builder's option lookup is an
explicit typed-optional chain that yields the default whenever the
model-scoped lookup has no value.  On the code the fallback is
exception-driven and fires only on `TypeError`: in an environment whose
model-scoped lookup fails with `KeyError` while the defaults do hold the
value 7, the code's lookup propagates the error instead of returning 7,
diverging from the spec's chain. -/
theorem C3_counterexample :
    provBad.defaults "table_name" = some 7 ∧
    provBad.builder_option none "table_name" = .error .KeyError ∧
    specOptionChain (fun _ _ => none) provBad.defaults none "table_name" =
      some 7 :=
  ⟨rfl, rfl, rfl⟩

/-- C3 (amended): the builder's option lookup attempts the model-scoped
lookup first and falls back to the table/global default, but through
exception-driven control flow — a successful model-scoped value passes
through, the defaults are consulted exactly when the model-scoped lookup
raises `TypeError`, and any other failure propagates to the caller instead
of yielding the default. -/
theorem C3_option_lookup (p : ProviderModel) (m : Option Model)
    (name : String) :
    (∀ v, p.manager_option m name = .ok v →
      p.builder_option m name = .ok v) ∧
    (p.manager_option m name = .error .TypeError →
      p.builder_option m name =
        (match p.defaults name with
         | some v => .ok v
         | none => .error .KeyError)) ∧
    (∀ e, e ≠ .TypeError → p.manager_option m name = .error e →
      p.builder_option m name = .error e) := by
  unfold ProviderModel.builder_option
  refine ⟨?_, ?_, ?_⟩
  · intro v hv
    rw [hv]
  · intro he
    rw [he]
    simp
  · intro e hne he
    rw [he]
    simp [hne]

/-- C3 witness: in an environment whose model-scoped lookup raises
`TypeError` and whose defaults map every name to 7, the builder's lookup
returns 7. -/
theorem C3_option_lookup_witness :
    provTE.manager_option none "strategy" = .error .TypeError ∧
    provTE.builder_option none "strategy" = .ok 7 :=
  ⟨rfl, (C3_option_lookup provTE none "strategy").2.1 rfl⟩

/-- C7: the kept parent columns form an order-preserving sublist of the
parent table's columns (so reflected copies appear in source order); every
column the exclusion test rejects is absent; and the exclusion test is the
manager's policy predicate when a mapped model is supplied and a plain
membership test of the column against the excluded-name set when it is
not.  The reflected output is the reflections of exactly these columns, in
order, possibly followed by the appended transaction-column placeholder. -/
theorem C7_exclusion (b : TableBuilder) (c : Column)
    (hc : c ∈ b.parent_columns) :
    b.excluded c = false ∧
    b.parent_columns.Sublist b.parent_table.columns ∧
    b.parent_columns =
      b.parent_table.columns.filter (fun x => !(b.excluded x)) ∧
    (∀ x ∈ b.parent_table.columns, b.excluded x = true →
      x ∉ b.parent_columns) ∧
    b.excluded c =
      (match b.model with
       | some m => b.manager.is_excluded_column m c
       | none => b.manager.options.exclude.contains c.name) ∧
    (b.reflected_columns = b.parent_columns.map b.reflect_column ∨
     b.reflected_columns = b.parent_columns.map b.reflect_column ++
       [saColumnDefault b.manager.options.transaction_column_name
         .BigInteger]) := by
  refine ⟨?_, List.filter_sublist _, rfl, ?_, rfl, ?_⟩
  · have := (List.mem_filter.mp hc).2
    simpa using this
  · intro x hx hex hmem
    have := (List.mem_filter.mp hmem).2
    rw [hex] at this
    simp at this
  · dsimp only [TableBuilder.reflected_columns]
    split
    · exact Or.inl rfl
    · exact Or.inr rfl

/-- C7 witness: over the `invoice` builder, `id` is kept, the kept columns
are the source-ordered non-excluded ones, and the no-model exclusion test
is the name-set membership test. -/
theorem C7_exclusion_witness :
    colId ∈ bA.parent_columns ∧
    (bA.excluded colId = false ∧
     bA.parent_columns.Sublist bA.parent_table.columns ∧
     bA.parent_columns =
       bA.parent_table.columns.filter (fun x => !(bA.excluded x)) ∧
     (∀ x ∈ bA.parent_table.columns, bA.excluded x = true →
       x ∉ bA.parent_columns) ∧
     bA.excluded colId =
       (match bA.model with
        | some m => bA.manager.is_excluded_column m colId
        | none => bA.manager.options.exclude.contains colId.name) ∧
     (bA.reflected_columns = bA.parent_columns.map bA.reflect_column ∨
      bA.reflected_columns = bA.parent_columns.map bA.reflect_column ++
        [saColumnDefault bA.manager.options.transaction_column_name
          .BigInteger])) :=
  ⟨by decide, C7_exclusion bA colId (by decide)⟩

/-- C5: under sane configuration (the end-transaction name differs from the
transaction and operation-type names, and no reflected column carries it),
the assembled column list has a column keyed by the end-transaction name
exactly when the strategy is validity; under validity the list ends with
transaction, end-transaction, operation-type in that order, so the
end-transaction column sits after the transaction column and before the
operation-type column; and that column is indexed, nullable and
integer-typed. -/
theorem C5_end_transaction_column (b : TableBuilder)
    (h1 : b.manager.options.end_transaction_column_name ≠
      b.manager.options.transaction_column_name)
    (h2 : b.manager.options.end_transaction_column_name ≠
      b.manager.options.operation_type_column_name)
    (h3 : ∀ c ∈ b.reflected_columns,
      c.key ≠ b.manager.options.end_transaction_column_name) :
    ((∃ c ∈ b.columns,
        c.key = b.manager.options.end_transaction_column_name) ↔
      b.manager.options.strategy = "validity") ∧
    (b.manager.options.strategy = "validity" →
      b.columns = b.reflected_columns ++
        [b.transaction_column, b.end_transaction_column,
         b.operation_type_column]) ∧
    (b.manager.options.strategy ≠ "validity" →
      b.columns = b.reflected_columns ++
        [b.transaction_column, b.operation_type_column]) ∧
    b.end_transaction_column.key =
      b.manager.options.end_transaction_column_name ∧
    b.end_transaction_column.index = true ∧
    b.end_transaction_column.nullable = true ∧
    b.end_transaction_column.type = .BigInteger := by
  by_cases hs : b.manager.options.strategy = "validity"
  · have hcol : b.columns = b.reflected_columns ++
        [b.transaction_column, b.end_transaction_column,
         b.operation_type_column] := by
      rw [columns_eq, if_pos hs]
      simp
    refine ⟨?_, fun _ => hcol, fun hn => absurd hs hn, rfl, rfl, rfl, rfl⟩
    constructor
    · intro _
      exact hs
    · intro _
      refine ⟨b.end_transaction_column, ?_, rfl⟩
      rw [hcol]
      simp
  · have hcol : b.columns = b.reflected_columns ++
        [b.transaction_column, b.operation_type_column] := by
      rw [columns_eq, if_neg hs]
      simp
    refine ⟨?_, fun hv => absurd hv hs, fun _ => hcol, rfl, rfl, rfl, rfl⟩
    constructor
    · rintro ⟨c, hmem, hkey⟩
      rw [hcol] at hmem
      rcases List.mem_append.mp hmem with hr | hm
      · exact absurd hkey (fun hh => h3 c hr hh)
      · rcases List.mem_cons.mp hm with rfl | hm2
        · exact absurd hkey.symm h1
        · rw [List.mem_singleton] at hm2
          subst hm2
          exact absurd hkey.symm h2
    · intro hv
      exact absurd hv hs

/-- C5 witness: the `invoice` builder under the validity strategy. -/
theorem C5_end_transaction_column_witness :
    (∀ c ∈ bA.reflected_columns,
      c.key ≠ bA.manager.options.end_transaction_column_name) ∧
    ((∃ c ∈ bA.columns,
        c.key = bA.manager.options.end_transaction_column_name) ↔
      bA.manager.options.strategy = "validity") ∧
    (bA.manager.options.strategy = "validity" →
      bA.columns = bA.reflected_columns ++
        [bA.transaction_column, bA.end_transaction_column,
         bA.operation_type_column]) :=
  ⟨by decide,
   (C5_end_transaction_column bA (by decide) (by decide) (by decide)).1,
   (C5_end_transaction_column bA (by decide) (by decide) (by decide)).2.1⟩

/-- C8: the output table name in normal mode is the template applied to the
parent table's name; building against a catalog already holding that name
is reported as a conflict; against a fresh catalog the table is registered
under that name in the parent's catalog. -/
theorem C8_naming_and_conflict (b : TableBuilder) (meta : MetaData) :
    b.table_name =
      b.manager.options.table_name.subst b.parent_table.name ∧
    b.manager.options.table_name.subst b.parent_table.name =
      b.manager.options.table_name.pre ++ b.parent_table.name ++
        b.manager.options.table_name.suf ∧
    (∀ u, metaLookup meta b.table_name = some u →
      b.build meta none = .error .InvalidRequestError) ∧
    (metaLookup meta b.table_name = none →
      ∃ t m1, b.build meta none = .ok (t, m1) ∧ t.name = b.table_name ∧
        metaLookup m1 b.table_name = some t) := by
  refine ⟨rfl, rfl, ?_, ?_⟩
  · intro u hu
    unfold TableBuilder.build saTable
    simp [hu]
  · intro hn
    refine ⟨_, _, build_none_eq b meta hn, rfl, ?_⟩
    exact metaLookup_append_of_none meta _ hn

/-- C8 witness: `invoice` versioned under an empty catalog registers
`invoice_version`; versioned under a catalog already holding
`invoice_version`, the build is a reported conflict. -/
theorem C8_naming_and_conflict_witness :
    (metaLookup [] bA.table_name = none ∧
     ∃ t m1, bA.build [] none = Except.ok (t, m1) ∧
       t.name = bA.table_name ∧ metaLookup m1 bA.table_name = some t) ∧
    (metaLookup [sharedVersionTable] bA.table_name =
      some sharedVersionTable ∧
     bA.build [sharedVersionTable] none = .error .InvalidRequestError) :=
  ⟨⟨rfl, (C8_naming_and_conflict bA []).2.2.2 rfl⟩,
   ⟨by decide, (C8_naming_and_conflict bA [sharedVersionTable]).2.2.1
     sharedVersionTable (by decide)⟩⟩

/-- C4: an extend-mode build whose plugin hook appends `extra` (with keys
not clashing with the extended table's), called against the catalog holding
the extended table, contributes no base columns of its own: it returns the
existing table's name with its existing columns plus exactly the
plugin-added ones, re-registered in place rather than newly created. -/
theorem C4_extend_mode (b : TableBuilder) (meta : MetaData) (e : Table)
    (extra : List Column)
    (hp : b.manager.plugins = fun cs => cs ++ extra)
    (hm : metaLookup meta e.name = some e)
    (hk : KeyUnique (e.columns ++ extra)) :
    ∃ m2, b.build meta (some e) =
      .ok (⟨e.name, e.columns ++ extra⟩, m2) := by
  rcases build_some_eq b meta e hm with ⟨m2, hb⟩
  rw [hp] at hb
  simp only [List.nil_append] at hb
  rw [foldl_dedup_of_keyUnique extra e.columns hk] at hb
  exact ⟨m2, hb⟩

/-- C4 witness: extending the shared `invoice_version` table with a plugin
that adds nothing returns that table unchanged. -/
theorem C4_extend_mode_witness :
    metaLookup [sharedVersionTable] sharedVersionTable.name =
      some sharedVersionTable ∧
    ∃ m2, bA.build [sharedVersionTable] (some sharedVersionTable) =
      Except.ok (⟨sharedVersionTable.name,
        sharedVersionTable.columns ++ []⟩, m2) :=
  ⟨by decide, C4_extend_mode bA [sharedVersionTable] sharedVersionTable []
    rfl (by decide) (by decide)⟩

/-- C1: a normal-mode build (with a plugin appending only columns whose
keys avoid the configured transaction column name, the operation-type and
end-transaction names distinct from it, and a fresh catalog) yields a table
whose columns, filtered to the transaction-column key, are exactly the one
transaction column — non-null, primary-key, indexed, autoincrement
disabled, integer-typed; and a subsequent extend-mode build over that table
(joined-table inheritance reuse, with any builder whose plugin also avoids
that key) again yields exactly that one transaction column. -/
theorem C1_exactly_one_transaction_column
    (b b2 : TableBuilder) (meta : MetaData) (extra extra2 : List Column)
    (hp : b.manager.plugins = fun cs => cs ++ extra)
    (hp2 : b2.manager.plugins = fun cs => cs ++ extra2)
    (he : ∀ c ∈ extra,
      c.key ≠ b.manager.options.transaction_column_name)
    (he2 : ∀ c ∈ extra2,
      c.key ≠ b.manager.options.transaction_column_name)
    (hop : b.manager.options.operation_type_column_name ≠
      b.manager.options.transaction_column_name)
    (hend : b.manager.options.end_transaction_column_name ≠
      b.manager.options.transaction_column_name)
    (hfresh : metaLookup meta b.table_name = none) :
    ∃ t m1 t2 m2,
      b.build meta none = .ok (t, m1) ∧
      t.columns.filter (fun c =>
        c.key == b.manager.options.transaction_column_name) =
        [b.transaction_column] ∧
      b2.build m1 (some t) = .ok (t2, m2) ∧
      t2.columns.filter (fun c =>
        c.key == b.manager.options.transaction_column_name) =
        [b.transaction_column] ∧
      b.transaction_column.key =
        b.manager.options.transaction_column_name ∧
      b.transaction_column.primary_key = true ∧
      b.transaction_column.nullable = false ∧
      b.transaction_column.index = true ∧
      b.transaction_column.autoincrement = .no ∧
      b.transaction_column.type = .BigInteger := by
  have hopl : ∀ c ∈ [b.operation_type_column],
      c.key ≠ b.manager.options.transaction_column_name := by
    intro c hc
    rw [List.mem_singleton] at hc
    subst hc
    exact hop
  have hmid : ∀ c ∈ (if b.manager.options.strategy = "validity" then
      [b.end_transaction_column] else ([] : List Column)),
      c.key ≠ b.manager.options.transaction_column_name := by
    intro c hc
    by_cases hs : b.manager.options.strategy = "validity"
    · rw [if_pos hs, List.mem_singleton] at hc
      subst hc
      exact hend
    · rw [if_neg hs] at hc
      simp at hc
  have hsing : lastKeyed [b.transaction_column]
      b.manager.options.transaction_column_name =
      some b.transaction_column := by
    have hkey : (b.transaction_column.key ==
        b.manager.options.transaction_column_name) = true := by
      simp [TableBuilder.transaction_column]
    show (if b.transaction_column.key ==
        b.manager.options.transaction_column_name then
        some b.transaction_column else none) = some b.transaction_column
    rw [hkey]
    simp
  have hlast : lastKeyed (b.columns ++ extra)
      b.manager.options.transaction_column_name =
      some b.transaction_column := by
    rw [lastKeyed_append_none _ extra _ (lastKeyed_eq_none extra _ he)]
    rw [columns_eq]
    rw [lastKeyed_append_none _ _ _ (lastKeyed_eq_none _ _ hopl)]
    rw [lastKeyed_append_none _ _ _ (lastKeyed_eq_none _ _ hmid)]
    exact lastKeyed_append_some _ _ _ _ hsing
  have hb1 := build_none_eq b meta hfresh
  have hcols1 : b.manager.plugins b.columns = b.columns ++ extra := by
    rw [hp]
  have hfilter1 : (dedupColumns (b.manager.plugins b.columns)).filter
      (fun c => c.key == b.manager.options.transaction_column_name) =
      [b.transaction_column] := by
    rw [hcols1]
    unfold dedupColumns
    rw [filter_foldl_dedup (b.columns ++ extra) [] _ List.Pairwise.nil,
      hlast]
  have hku : KeyUnique (dedupColumns (b.manager.plugins b.columns)) :=
    keyUnique_foldl _ [] List.Pairwise.nil
  have hm1 : metaLookup
      (meta ++ [(⟨b.table_name,
        dedupColumns (b.manager.plugins b.columns)⟩ : Table)])
      b.table_name =
      some ⟨b.table_name, dedupColumns (b.manager.plugins b.columns)⟩ :=
    metaLookup_append_of_none meta _ hfresh
  rcases build_some_eq b2
    (meta ++ [(⟨b.table_name,
      dedupColumns (b.manager.plugins b.columns)⟩ : Table)])
    ⟨b.table_name, dedupColumns (b.manager.plugins b.columns)⟩ hm1 with
    ⟨m2, hb2⟩
  rw [hp2] at hb2
  simp only [List.nil_append] at hb2
  have hfilter2 : ((extra2.foldl addColumnDedup
      (dedupColumns (b.manager.plugins b.columns)))).filter
      (fun c => c.key == b.manager.options.transaction_column_name) =
      [b.transaction_column] := by
    rw [filter_foldl_dedup extra2 _ _ hku,
      lastKeyed_eq_none extra2 _ he2]
    exact hfilter1
  exact ⟨_, _, _, m2, hb1, hfilter1, hb2, hfilter2,
    rfl, rfl, rfl, rfl, rfl, rfl⟩

/-- C1 witness: the `invoice` builder over an empty catalog, followed by an
extend-mode reuse of the produced version table. -/
theorem C1_exactly_one_transaction_column_witness :
    metaLookup [] bA.table_name = none ∧
    (∃ t m1 t2 m2,
      bA.build [] none = .ok (t, m1) ∧
      t.columns.filter (fun c =>
        c.key == bA.manager.options.transaction_column_name) =
        [bA.transaction_column] ∧
      bA.build m1 (some t) = .ok (t2, m2) ∧
      t2.columns.filter (fun c =>
        c.key == bA.manager.options.transaction_column_name) =
        [bA.transaction_column] ∧
      bA.transaction_column.key =
        bA.manager.options.transaction_column_name ∧
      bA.transaction_column.primary_key = true ∧
      bA.transaction_column.nullable = false ∧
      bA.transaction_column.index = true ∧
      bA.transaction_column.autoincrement = .no ∧
      bA.transaction_column.type = .BigInteger) :=
  ⟨rfl, C1_exactly_one_transaction_column bA bA [] [] [] rfl rfl
    (by simp) (by simp) (by decide) (by decide) rfl⟩

end TB
